import Mathlib

/-!
Verification development for the VibeSDK CLI client
(`cli-tool/src/index.ts`).

Part 1 embeds the NDJSON creation-stream reader of `createAgent`
(index.ts lines 92-134): bytes are modelled as `List Char`, a read step
splits `buffer + chunk` on newlines, keeps the trailing partial line as the
new buffer, and processes the complete lines in order (blank lines skipped,
the literal `terminate` sentinel logged and breaking out of the per-read
line loop, any other line handed to JSON parsing).  Since the JSON
classification of a line is a pure function of the line, frames are
modelled at line granularity.

Part 2 embeds the WebSocket dispatcher `handleWebSocketMessage`, the
`saveFile` helper and the mutable globals (index.ts lines 27-52 and
200-401), together with Node `path.join` segment normalization for the
on-disk write path.
-/

namespace VibeCli

/-- One processed frame of the creation stream: the literal sentinel line,
or a nonblank line handed to `JSON.parse` (session-info / chunk / parse
error are a pure function of the line's text, so the line itself is kept). -/
inductive CreFrame where
  | terminate : CreFrame
  | line : List Char → CreFrame
deriving DecidableEq, Repr

/-- Whitespace characters removed by `String.trim` that can occur inside a
single line (a line never contains `'\n'`). -/
def isWsChar (c : Char) : Bool := c = ' ' || c = '\t' || c = '\r'

/-- `!line.trim()` : the line is blank (empty or whitespace only). -/
def isBlank (l : List Char) : Bool := l.all isWsChar

/-- The characters of the literal sentinel token. -/
def termChars : List Char := "terminate".data

/-- The per-read line loop (index.ts 105-133): a blank line is skipped
(`continue`), the sentinel line is observed and `break`s out of the loop
for the current read, and any other line becomes a frame. -/
def processLines : List (List Char) → List CreFrame
  | [] => []
  | l :: ls =>
    if isBlank l then processLines ls
    else if l = termChars then [CreFrame.terminate]
    else CreFrame.line l :: processLines ls

/-- Prepend a character to the first complete line of a split result, or to
the buffer when there is no complete line. -/
def consHead (c : Char) : List (List Char) × List Char → List (List Char) × List Char
  | ([], b) => ([], c :: b)
  | (l :: ls, b) => ((c :: l) :: ls, b)

/-- `(buffer + chunk).split('\n')` followed by `lines.pop()` (index.ts
102-103): the complete lines, and the text after the last newline which is
kept as the carry-over buffer. -/
def splitNl : List Char → List (List Char) × List Char
  | [] => ([], [])
  | c :: cs =>
    if c = '\n' then ([] :: (splitNl cs).1, (splitNl cs).2)
    else consHead c (splitNl cs)

/-- The read loop (index.ts 96-134): each read appends the chunk to the
buffer, processes the complete lines, and keeps the partial line; when the
stream reports `done` the loop exits at once, dropping whatever is still in
the buffer. -/
def runReadsAux : List Char → List (List Char) → List CreFrame
  | _, [] => []
  | b, c :: cs =>
    processLines (splitNl (b ++ c)).1 ++ runReadsAux (splitNl (b ++ c)).2 cs

/-- The frames processed when the byte stream is delivered as the given
sequence of read chunks. -/
def runReads (chunks : List (List Char)) : List CreFrame :=
  runReadsAux [] chunks

/-! ## Part 2: WebSocket dispatcher state and handlers -/

/-- The mutable globals of the client that the dispatcher touches
(index.ts 28-32): `agentId`, `filesMap`, `lastDeploymentUrl`.
(`websocketUrl` and the socket handle are connection plumbing no handler
mutates and are omitted.) -/
structure CliState where
  agentId : Option String
  filesMap : List (String × String)
  lastDeploymentUrl : Option String
deriving DecidableEq, Repr

/-- JS truthiness of a string-or-nullish value: `null`/`undefined` and the
empty string are falsy. -/
def truthyOpt : Option String → Bool
  | none => false
  | some s => s != ""

/-- JS `a || b` on string-or-nullish values. -/
def jsOr (a b : Option String) : Option String :=
  if truthyOpt a then a else b

/-- JS `a || null` on a string-or-nullish value. -/
def orNull (a : Option String) : Option String :=
  if truthyOpt a then a else none

/-- JS `Map.set`: update the value in place when the key is present,
otherwise append the new entry (insertion order preserved). -/
def mapSet (m : List (String × String)) (k v : String) : List (String × String) :=
  if m.any (fun p => p.1 == k) then
    m.map (fun p => if p.1 == k then (k, v) else p)
  else m ++ [(k, v)]

/-- Split on `'/'` (n separators give n+1 parts, empty parts kept, like
`String.split`). -/
def splitSlash : List Char → List (List Char)
  | [] => [[]]
  | c :: cs =>
    if c = '/' then [] :: splitSlash cs
    else
      match splitSlash cs with
      | [] => [[c]]
      | p :: ps => (c :: p) :: ps

/-- A path string as slash-separated segments (Node joins parts with `/`). -/
def pathSegs (s : String) : List String := (splitSlash s.data).map String.mk

/-- One step of Node `path.normalize` segment resolution for a relative
path: empty and `.` segments are dropped; `..` pops the previous real
segment, or is kept when there is nothing left to pop. -/
def normStep (acc : List String) (seg : String) : List String :=
  if seg = "" ∨ seg = "." then acc
  else if seg = ".." then
    match acc.getLast? with
    | some t => if t = ".." then acc ++ [".."] else acc.dropLast
    | none => [".."]
  else acc ++ [seg]

/-- Node `path.normalize` on a segment list. -/
def normSegs (segs : List String) : List String := segs.foldl normStep []

/-- `join(OUTPUT_DIR, agentId, filePath)` (index.ts 45), as normalized
segments of the resulting relative path. -/
def savePathSegs (outputDir aid filePath : String) : List String :=
  normSegs (pathSegs outputDir ++ pathSegs aid ++ pathSegs filePath)

/-- `saveFile` (index.ts 42-52): a no-op when `agentId` is falsy; otherwise
writes `contents` at the joined output path on disk and updates `filesMap`.
Returns the new map and the disk writes performed (path segments, contents). -/
def saveFile (agentId : Option String) (outputDir : String)
    (m : List (String × String)) (filePath contents : String) :
    List (String × String) × List (List String × String) :=
  if truthyOpt agentId then
    (mapSet m filePath contents,
      [(savePathSegs outputDir (agentId.getD "") filePath, contents)])
  else (m, [])

/-- An inline file object of a `file_generated` frame. -/
structure FileObj where
  filePath : String
  fileContents : String
deriving DecidableEq, Repr

/-- `msg.file || { filePath: msg.filePath!, fileContents: msg.fileContents! }`
(index.ts 274-278).  An absent flattened field is a JS `undefined`, which
`join`/`writeFile` would reject at runtime; theorems only consider
well-formed frames, so the `getD ""` default is never relied upon. -/
def resolvedFile (file : Option FileObj) (fp fc : Option String) : FileObj :=
  match file with
  | some f => f
  | none => { filePath := fp.getD "", fileContents := fc.getD "" }

/-- The phase-progress frame kinds (index.ts cases `phase_generating`,
`phase_implementing`, `phase_validating`, `phase_generated`,
`phase_implemented`, `phase_validated`, `phase_failed`). -/
inductive PhaseKind where
  | generating | implementing | validating
  | generated | implemented | validated | failed
deriving DecidableEq, Repr

/-- Inbound WebSocket frames, one constructor per `switch` case group of
`handleWebSocketMessage` (index.ts 204-400), carrying exactly the fields a
handler reads; `unknown` is any other discriminant (the `default` arm). -/
inductive WsMessage where
  | agentConnected (generatedFiles : List (String × String))
  | generationStarted | generationComplete | generationStopped | generationResumed
  | phaseProgress (kind : PhaseKind) (message : String)
  | fileGenerating (filePath : String)
  | fileChunkGenerated (filePath : String) (chunk : String)
  | fileGenerated (file : Option FileObj) (filePath fileContents : Option String)
  | deploymentStarted (subdomain : Option String)
  | deploymentCompleted (deployedUrl previewURL previewUrl : Option String)
  | deploymentFailed (error : Option String)
  | cloudflareDeploymentStarted (instanceId : String)
  | cloudflareDeploymentCompleted (deploymentUrl workersUrl : Option String)
  | cloudflareDeploymentError (error : Option String)
  | conversationResponse (message : Option String)
  | conversationState (messages : List String)
  | errorFrame (error : Option String)
  | rateLimitError (error : Option String)
  | unknown (typ : String)
deriving DecidableEq, Repr

/-- The discriminant strings the `switch` recognizes (its case labels). -/
def recognizedTypes : List String :=
  ["agent_connected",
   "generation_started", "generation_complete", "generation_stopped", "generation_resumed",
   "phase_generating", "phase_implementing", "phase_validating",
   "phase_generated", "phase_implemented", "phase_validated", "phase_failed",
   "file_generating", "file_chunk_generated", "file_generated",
   "deployment_started", "deployment_completed", "deployment_failed",
   "cloudflare_deployment_started", "cloudflare_deployment_completed",
   "cloudflare_deployment_error",
   "conversation_response", "conversation_state",
   "error", "rate_limit_error"]

/-- Result of handling one frame: the new state, the `saveFile` invocations
(`filePath`, `contents`), and the disk writes performed. -/
structure HandleResult where
  state : CliState
  calls : List (String × String)
  writes : List (List String × String)
deriving DecidableEq, Repr

/-- The `agent_connected` snapshot loop (index.ts 214-216): one `saveFile`
per snapshot entry, in order.  Returns the final state and the disk writes. -/
def snapshotStep (outputDir : String) (s : CliState) :
    List (String × String) → CliState × List (List String × String)
  | [] => (s, [])
  | (p, c) :: rest =>
    let r := saveFile s.agentId outputDir s.filesMap p c
    let tl := snapshotStep outputDir { s with filesMap := r.1 } rest
    (tl.1, r.2 ++ tl.2)

/-- `handleWebSocketMessage` (index.ts 201-401).  Every branch not listed
below only formats console output and mutates nothing, exactly like the
`default` arm; the state-touching branches are `agent_connected`
(snapshot resync), `file_generated` (one `saveFile`), and the two
deployment-completion branches (store the resolved URL, or null). -/
def handleMessage (outputDir : String) (s : CliState) (m : WsMessage) : HandleResult :=
  match m with
  | .agentConnected files =>
    let r := snapshotStep outputDir s files
    ⟨r.1, files, r.2⟩
  | .fileGenerated file fp fc =>
    let f := resolvedFile file fp fc
    let r := saveFile s.agentId outputDir s.filesMap f.filePath f.fileContents
    ⟨{ s with filesMap := r.1 }, [(f.filePath, f.fileContents)], r.2⟩
  | .deploymentCompleted d p1 p2 =>
    -- const url = msg.deployedUrl || msg.previewURL || msg.previewUrl;
    -- lastDeploymentUrl = url || null;
    ⟨{ s with lastDeploymentUrl := orNull (jsOr (jsOr d p1) p2) }, [], []⟩
  | .cloudflareDeploymentCompleted du wu =>
    -- const url = msg.deploymentUrl || msg.workersUrl;
    -- lastDeploymentUrl = url || null;
    ⟨{ s with lastDeploymentUrl := orNull (jsOr du wu) }, [], []⟩
  | _ => ⟨s, [], []⟩

/-- Processing a sequence of inbound frames in arrival order, accumulating
`saveFile` invocations and disk writes. -/
def processMsgs (outputDir : String) (s : CliState) : List WsMessage → HandleResult
  | [] => ⟨s, [], []⟩
  | m :: ms =>
    let r := handleMessage outputDir s m
    let rest := processMsgs outputDir r.state ms
    ⟨rest.state, r.calls ++ rest.calls, r.writes ++ rest.writes⟩

/-- The `/url` command (index.ts 438-443): shows `lastDeploymentUrl` when
truthy, otherwise reports that no deployment URL is available (`none`). -/
def urlShown (s : CliState) : Option String :=
  if truthyOpt s.lastDeploymentUrl then s.lastDeploymentUrl else none

/-- The URL a completion frame resolves and stores (the two
`deployment_completed` family branches); `none` for any other frame. -/
def resolvedUrlOf : WsMessage → Option String
  | .deploymentCompleted d p1 p2 => orNull (jsOr (jsOr d p1) p2)
  | .cloudflareDeploymentCompleted du wu => orNull (jsOr du wu)
  | _ => none

/-- A deployment-completion frame of either lineage. -/
def isCompletionFrame : WsMessage → Bool
  | .deploymentCompleted _ _ _ => true
  | .cloudflareDeploymentCompleted _ _ => true
  | _ => false

/-- A file-chunk frame (`file_chunk_generated`). -/
def isChunkFrame : WsMessage → Bool
  | .fileChunkGenerated _ _ => true
  | _ => false

/-- The written path stays under the root: the root segments lead it. -/
def confinedUnder (root p : List String) : Prop :=
  p.take root.length = root

/-! ## Lemmas about the creation-stream reader -/

theorem splitNl_no_newline (x : List Char) (h : '\n' ∉ x) : splitNl x = ([], x) := by
  induction x with
  | nil => rfl
  | cons c cs ih =>
    rw [List.mem_cons, not_or] at h
    obtain ⟨h1, h2⟩ := h
    have hc : ¬ c = '\n' := fun e => h1 e.symm
    simp [splitNl, hc, ih h2, consHead]

theorem splitNl_buf_no_newline (x : List Char) : '\n' ∉ (splitNl x).2 := by
  induction x with
  | nil => simp [splitNl]
  | cons c cs ih =>
    by_cases hc : c = '\n'
    · simpa [splitNl, hc] using ih
    · rcases hx : splitNl cs with ⟨L, b⟩
      rw [hx] at ih
      cases L with
      | nil =>
        simp only [splitNl, hc, if_false, hx, consHead]
        rw [List.mem_cons, not_or]
        exact ⟨fun e => hc e.symm, ih⟩
      | cons l ls => simpa [splitNl, hc, hx, consHead] using ih

theorem splitNl_append (x y : List Char) :
    splitNl (x ++ y) =
      ((splitNl x).1 ++ (splitNl ((splitNl x).2 ++ y)).1,
       (splitNl ((splitNl x).2 ++ y)).2) := by
  induction x with
  | nil => simp [splitNl]
  | cons c xs ih =>
    rw [List.cons_append]
    by_cases hc : c = '\n'
    · subst hc
      simp only [splitNl, if_pos, ih]
      rfl
    · simp only [splitNl, if_neg hc, ih]
      rcases hx : splitNl xs with ⟨L, bx⟩
      cases L with
      | nil =>
        simp only [consHead, List.nil_append]
        have : (c :: bx) ++ y = c :: (bx ++ y) := rfl
        rw [this]
        show consHead c (splitNl (bx ++ y)) =
          ((splitNl (c :: (bx ++ y))).1, (splitNl (c :: (bx ++ y))).2)
        rw [show splitNl (c :: (bx ++ y)) = consHead c (splitNl (bx ++ y)) by
          simp [splitNl, if_neg hc]]
      | cons l ls =>
        simp [consHead]

theorem splitNl_snoc_newline (z : List Char) (h : '\n' ∉ z) :
    splitNl (z ++ ['\n']) = ([z], []) := by
  induction z with
  | nil => rfl
  | cons c cs ih =>
    rw [List.mem_cons, not_or] at h
    obtain ⟨h1, h2⟩ := h
    have hc : ¬ c = '\n' := fun e => h1 e.symm
    simp [splitNl, hc, ih h2, consHead]

theorem processLines_append (l1 l2 : List (List Char))
    (h : ∀ l ∈ l1, l ≠ termChars) :
    processLines (l1 ++ l2) = processLines l1 ++ processLines l2 := by
  induction l1 with
  | nil => simp [processLines]
  | cons l ls ih =>
    have hl : l ≠ termChars := h l (List.mem_cons_self _ _)
    have hls : ∀ a ∈ ls, a ≠ termChars := fun a ha => h a (List.mem_cons_of_mem _ ha)
    by_cases hb : isBlank l
    · simp [processLines, hb, ih hls]
    · simp [processLines, hb, hl, ih hls]

theorem processLines_term_last (L : List (List Char)) (h : ∀ l ∈ L, l ≠ termChars) :
    processLines (L ++ [termChars]) = processLines L ++ [CreFrame.terminate] := by
  rw [processLines_append L [termChars] h]
  have : processLines [termChars] = [CreFrame.terminate] := by decide
  rw [this]

theorem runReadsAux_all_empty (cs : List (List Char)) :
    ∀ b, '\n' ∉ b → cs.flatten = [] → runReadsAux b cs = [] := by
  induction cs with
  | nil => intro b _ _; rfl
  | cons c cs ih =>
    intro b hb hf
    have hcf : c = [] ∧ cs.flatten = [] := by simpa using hf
    obtain ⟨hc, hcs⟩ := hcf
    subst hc
    show processLines (splitNl (b ++ [])).1 ++ runReadsAux (splitNl (b ++ [])).2 cs = []
    rw [List.append_nil, splitNl_no_newline b hb]
    simpa [processLines] using ih b hb hcs

theorem splitNl_eq_nil_nil (x : List Char) (h : splitNl x = ([], [])) : x = [] := by
  cases x with
  | nil => rfl
  | cons c cs =>
    by_cases hc : c = '\n'
    · simp [splitNl, hc] at h
    · rcases hx : splitNl cs with ⟨L, b⟩
      cases L <;> simp [splitNl, hc, hx, consHead] at h

theorem runReadsAux_no_term (cs : List (List Char)) :
    ∀ b, '\n' ∉ b →
    (∀ l ∈ (splitNl (b ++ cs.flatten)).1, l ≠ termChars) →
    runReadsAux b cs = processLines (splitNl (b ++ cs.flatten)).1 := by
  induction cs with
  | nil =>
    intro b hb _
    rw [List.flatten_nil, List.append_nil, splitNl_no_newline b hb]
    rfl
  | cons c cs ih =>
    intro b hb h
    have hassoc : b ++ (c :: cs).flatten = (b ++ c) ++ cs.flatten := by
      simp [List.flatten_cons]
    rw [hassoc] at h ⊢
    rw [splitNl_append (b ++ c) cs.flatten] at h ⊢
    have hb1 : '\n' ∉ (splitNl (b ++ c)).2 := splitNl_buf_no_newline _
    have h1 : ∀ l ∈ (splitNl (b ++ c)).1, l ≠ termChars := by
      intro l hl; exact h l (List.mem_append.mpr (Or.inl hl))
    have h2 : ∀ l ∈ (splitNl ((splitNl (b ++ c)).2 ++ cs.flatten)).1, l ≠ termChars := by
      intro l hl; exact h l (List.mem_append.mpr (Or.inr hl))
    show processLines (splitNl (b ++ c)).1 ++ runReadsAux (splitNl (b ++ c)).2 cs = _
    rw [ih (splitNl (b ++ c)).2 hb1 h2,
      processLines_append _ _ h1]

theorem runReadsAux_term_last (cs : List (List Char)) :
    ∀ (b : List Char) (L : List (List Char)),
    '\n' ∉ b →
    (splitNl (b ++ cs.flatten)).1 = L ++ [termChars] →
    (∀ l ∈ L, l ≠ termChars) →
    (splitNl (b ++ cs.flatten)).2 = [] →
    runReadsAux b cs = processLines L ++ [CreFrame.terminate] := by
  induction cs with
  | nil =>
    intro b L hb h1 _ _
    rw [List.flatten_nil, List.append_nil, splitNl_no_newline b hb] at h1
    exact absurd h1.symm (by simp)
  | cons c cs ih =>
    intro b L hb h1 h2 h3
    have hassoc : b ++ (c :: cs).flatten = (b ++ c) ++ cs.flatten := by
      simp [List.flatten_cons]
    rw [hassoc, splitNl_append (b ++ c) cs.flatten] at h1 h3
    have hb1 : '\n' ∉ (splitNl (b ++ c)).2 := splitNl_buf_no_newline _
    show processLines (splitNl (b ++ c)).1 ++ runReadsAux (splitNl (b ++ c)).2 cs = _
    rcases List.append_eq_append_iff.mp h1 with ⟨a, ha1, ha2⟩ | ⟨a, ha1, ha2⟩
    · -- the first read's complete lines are an initial part of L
      have hL1 : ∀ l ∈ (splitNl (b ++ c)).1, l ≠ termChars := by
        intro l hl
        exact h2 l (ha1 ▸ List.mem_append.mpr (Or.inl hl))
      have hafree : ∀ l ∈ a, l ≠ termChars := by
        intro l hl
        exact h2 l (ha1 ▸ List.mem_append.mpr (Or.inr hl))
      rw [ih (splitNl (b ++ c)).2 a hb1 ha2 hafree h3, ha1,
        processLines_append _ _ hL1, List.append_assoc]
    · -- the sentinel completed within this read
      cases a with
      | nil =>
        simp only [List.nil_append] at ha2
        rw [List.append_nil] at ha1
        rw [ih (splitNl (b ++ c)).2 [] hb1 (by simpa using ha2.symm) (by simp) h3, ha1]
        simp [processLines]
      | cons a0 atl =>
        have ha0 : a0 = termChars ∧ atl ++ (splitNl ((splitNl (b ++ c)).2 ++ cs.flatten)).1 = [] := by
          have := ha2.symm
          rw [List.cons_append] at this
          exact ⟨(List.cons_eq_cons.mp this).1, (List.cons_eq_cons.mp this).2⟩
        obtain ⟨hterm, hrest⟩ := ha0
        have hR1 : (splitNl ((splitNl (b ++ c)).2 ++ cs.flatten)).1 = [] :=
          (List.append_eq_nil.mp hrest).2
        have hatl : atl = [] := (List.append_eq_nil.mp hrest).1
        subst hterm hatl
        have hempty : (splitNl (b ++ c)).2 ++ cs.flatten = [] :=
          splitNl_eq_nil_nil _ (Prod.ext hR1 h3)
        have hflat : cs.flatten = [] := (List.append_eq_nil.mp hempty).2
        rw [runReadsAux_all_empty cs _ hb1 hflat, ha1, processLines_term_last L h2,
          List.append_nil]

/-! ## C1 and C2 -/

/-- C1 counterexample: the byte stream `terminate\nalpha\n` delivered as one
read chunk versus as two read chunks (sentinel first) is the same byte
stream, yet the processed frame sequences differ — in the single read the
`break` after the sentinel skips the following line, while in separate
reads the following line is processed. -/
theorem c1_sentinel_same_read_counterexample :
    List.flatten ["terminate\nalpha\n".data] =
      List.flatten ["terminate\n".data, "alpha\n".data] ∧
    runReads ["terminate\nalpha\n".data] = [CreFrame.terminate] ∧
    runReads ["terminate\n".data, "alpha\n".data] =
      [CreFrame.terminate, CreFrame.line "alpha".data] ∧
    runReads ["terminate\nalpha\n".data] ≠
      runReads ["terminate\n".data, "alpha\n".data] := by
  refine ⟨by decide, by decide, by decide, by decide⟩

/-- C1 (amended): for every newline-terminated byte stream whose complete
lines are a sentinel-free list `L` followed by the `terminate` sentinel as
the final line, the processed frame sequence equals `processLines L`
followed by the sentinel frame for EVERY chunking of the stream — so any
two chunkings (in particular, splitting a line across two reads) yield
identical frame sequences.  (Lines delivered after the sentinel are the
part the counterexample removes: they are processed only when they arrive
in a later read than the sentinel.) -/
theorem c1_split_invariance_sentinel_last
    (s : List Char) (L : List (List Char)) (cs1 cs2 : List (List Char))
    (hf1 : cs1.flatten = s) (hf2 : cs2.flatten = s)
    (hL : (splitNl s).1 = L ++ [termChars])
    (hfree : ∀ l ∈ L, l ≠ termChars)
    (hbuf : (splitNl s).2 = []) :
    runReads cs1 = processLines L ++ [CreFrame.terminate] ∧
    runReads cs1 = runReads cs2 := by
  have h1 : runReads cs1 = processLines L ++ [CreFrame.terminate] := by
    apply runReadsAux_term_last cs1 [] L (by simp)
    · rw [List.nil_append, hf1]; exact hL
    · exact hfree
    · rw [List.nil_append, hf1]; exact hbuf
  have h2 : runReads cs2 = processLines L ++ [CreFrame.terminate] := by
    apply runReadsAux_term_last cs2 [] L (by simp)
    · rw [List.nil_append, hf2]; exact hL
    · exact hfree
    · rw [List.nil_append, hf2]; exact hbuf
  exact ⟨h1, h1.trans h2.symm⟩

/-- C1 witness: the amended theorem applied to the stream
`alpha\nterminate\n`, delivered whole versus in three reads that split the
`alpha` line and the sentinel line across read boundaries. -/
theorem c1_split_invariance_witness :
    List.flatten ["alpha\nterminate\n".data] = "alpha\nterminate\n".data ∧
    List.flatten ["al".data, "pha\nterm".data, "inate\n".data] =
      "alpha\nterminate\n".data ∧
    (splitNl "alpha\nterminate\n".data).1 = ["alpha".data] ++ [termChars] ∧
    (∀ l ∈ ["alpha".data], l ≠ termChars) ∧
    (splitNl "alpha\nterminate\n".data).2 = [] ∧
    (runReads ["alpha\nterminate\n".data] =
        processLines ["alpha".data] ++ [CreFrame.terminate] ∧
      runReads ["alpha\nterminate\n".data] =
        runReads ["al".data, "pha\nterm".data, "inate\n".data]) :=
  ⟨by decide, by decide, by decide, by decide, by decide,
    c1_split_invariance_sentinel_last "alpha\nterminate\n".data ["alpha".data]
      ["alpha\nterminate\n".data] ["al".data, "pha\nterm".data, "inate\n".data]
      (by decide) (by decide) (by decide) (by decide) (by decide)⟩

/-- C2 counterexample: a stream whose final line `alpha` is not terminated
by a newline yields no processed frame at all — the carry-over buffer is
dropped when the stream ends, not flushed — while the same line with a
trailing newline is processed. -/
theorem c2_unterminated_final_line_dropped :
    runReads ["alpha".data] = [] ∧
    runReads ["alpha\n".data] = [CreFrame.line "alpha".data] := by
  refine ⟨by decide, by decide⟩

/-- C2 (amended): the reader does keep an unterminated partial line in the
carry-over buffer across successive reads — a nonblank, non-sentinel line
split in two and completed by a newline in the second read is processed as
one frame — but when the stream ends the buffer is dropped, so a final
line not terminated by a newline is silently discarded, not processed. -/
theorem c2_carry_over_kept_but_not_flushed (l c1 c2 : List Char)
    (hsplit : c1 ++ c2 = l) (hnl : '\n' ∉ l)
    (hblank : isBlank l = false) (hterm : l ≠ termChars) :
    runReads [c1, c2 ++ ['\n']] = [CreFrame.line l] ∧
    runReads [c1, c2] = [] := by
  have hnl1 : '\n' ∉ c1 := fun m => hnl (hsplit ▸ List.mem_append.mpr (Or.inl m))
  have hstep1 : splitNl ([] ++ c1) = ([], c1) := by
    rw [List.nil_append]; exact splitNl_no_newline c1 hnl1
  constructor
  · show processLines (splitNl ([] ++ c1)).1 ++
      runReadsAux (splitNl ([] ++ c1)).2 [c2 ++ ['\n']] = _
    rw [hstep1]
    show processLines [] ++
      (processLines (splitNl (c1 ++ (c2 ++ ['\n']))).1 ++
        runReadsAux (splitNl (c1 ++ (c2 ++ ['\n']))).2 []) = _
    rw [show c1 ++ (c2 ++ ['\n']) = l ++ ['\n'] by rw [← hsplit, List.append_assoc],
      splitNl_snoc_newline l hnl]
    simp [processLines, hblank, hterm, runReadsAux]
  · show processLines (splitNl ([] ++ c1)).1 ++
      runReadsAux (splitNl ([] ++ c1)).2 [c2] = _
    rw [hstep1]
    show processLines [] ++
      (processLines (splitNl (c1 ++ c2)).1 ++
        runReadsAux (splitNl (c1 ++ c2)).2 []) = _
    rw [hsplit, splitNl_no_newline l hnl]
    simp [processLines, runReadsAux]

/-- C2 witness: the amended theorem applied to the line `alpha` split as
`al` + `pha`. -/
theorem c2_carry_over_witness :
    ("al".data ++ "pha".data = "alpha".data) ∧
    '\n' ∉ "alpha".data ∧
    isBlank "alpha".data = false ∧
    "alpha".data ≠ termChars ∧
    (runReads ["al".data, "pha".data ++ ['\n']] =
        [CreFrame.line "alpha".data] ∧
      runReads ["al".data, "pha".data] = []) :=
  ⟨by decide, by decide, by decide, by decide,
    c2_carry_over_kept_but_not_flushed "alpha".data "al".data "pha".data
      (by decide) (by decide) (by decide) (by decide)⟩

/-! ## Dispatcher lemmas, C3 and C4 -/

theorem mapSet_append_fresh (m : List (String × String)) (k v : String)
    (h : ∀ p ∈ m, p.1 ≠ k) : mapSet m k v = m ++ [(k, v)] := by
  have hany : m.any (fun p => p.1 == k) = false := by
    rw [List.any_eq_false]
    intro p hp
    simpa using h p hp
  simp [mapSet, hany]

theorem snapshotStep_spec (od aid : String) (ha : aid ≠ "") :
    ∀ (files : List (String × String)) (s : CliState),
    s.agentId = some aid →
    (∀ pr ∈ files, ∀ q ∈ s.filesMap, q.1 ≠ pr.1) →
    (files.map Prod.fst).Nodup →
    (snapshotStep od s files).1 = { s with filesMap := s.filesMap ++ files } := by
  intro files
  induction files with
  | nil =>
    intro s _ _ _
    simp [snapshotStep]
  | cons pc rest ih =>
    obtain ⟨p, c⟩ := pc
    intro s hs hfresh hnodup
    have htr : truthyOpt s.agentId = true := by
      rw [hs]; simp [truthyOpt, ha]
    have hsave1 : (saveFile s.agentId od s.filesMap p c).1 = s.filesMap ++ [(p, c)] := by
      simp only [saveFile, htr, if_true]
      exact mapSet_append_fresh _ _ _ fun q hq => hfresh (p, c) (List.mem_cons_self _ _) q hq
    have step : (snapshotStep od s ((p, c) :: rest)).1 =
        (snapshotStep od { s with filesMap := s.filesMap ++ [(p, c)] } rest).1 := by
      show (snapshotStep od { s with filesMap := (saveFile s.agentId od s.filesMap p c).1 } rest).1 = _
      rw [hsave1]
    have hnodup1 : p ∉ rest.map Prod.fst := by
      have := hnodup
      simp only [List.map_cons, List.nodup_cons] at this
      exact this.1
    have hfresh1 : ∀ pr ∈ rest, ∀ q ∈ s.filesMap ++ [(p, c)], q.1 ≠ pr.1 := by
      intro pr hpr q hq
      rcases List.mem_append.mp hq with hq1 | hq2
      · exact hfresh pr (List.mem_cons_of_mem _ hpr) q hq1
      · have : q = (p, c) := by simpa using hq2
        subst this
        intro e
        apply hnodup1
        rw [show p = pr.1 from e]
        exact List.mem_map_of_mem Prod.fst hpr
    have hnodup2 : (rest.map Prod.fst).Nodup := by
      have := hnodup
      simp only [List.map_cons, List.nodup_cons] at this
      exact this.2
    rw [step, ih { s with filesMap := s.filesMap ++ [(p, c)] } hs hfresh1 hnodup2]
    simp

/-- C3 counterexample: a connection-sync frame with N = 1 file entries,
handled in a state whose local file map already holds an entry for a path
the snapshot does not mention, produces the required single `saveFile`
call, yet afterwards the local file map has size 2, not 1: the old entry
survives, so the map does not equal the snapshot exactly. -/
theorem c3_prior_entry_survives_counterexample :
    (handleMessage "./output" ⟨some "a1", [("old", "x")], none⟩
      (.agentConnected [("f1", "c1")])).calls.length = 1 ∧
    (handleMessage "./output" ⟨some "a1", [("old", "x")], none⟩
      (.agentConnected [("f1", "c1")])).state.filesMap =
      [("old", "x"), ("f1", "c1")] ∧
    (handleMessage "./output" ⟨some "a1", [("old", "x")], none⟩
      (.agentConnected [("f1", "c1")])).state.filesMap.length ≠ 1 := by
  refine ⟨by decide, by decide, by decide⟩

/-- C3 (amended): a connection-sync frame with N file entries invokes
`saveFile` exactly N times, once per entry in order with that entry's path
and contents; and when the local file map starts empty (the state of a
fresh connection), the session id is set, and the snapshot paths are
distinct, the local file map afterwards equals the server-reported
snapshot exactly.  (In general the handler merges: entries already present
for paths outside the snapshot survive, as the counterexample shows.) -/
theorem c3_connection_sync_resync (od aid : String)
    (files : List (String × String))
    (ha : aid ≠ "") (hnodup : (files.map Prod.fst).Nodup) :
    (handleMessage od ⟨some aid, [], none⟩ (.agentConnected files)).calls = files ∧
    (handleMessage od ⟨some aid, [], none⟩
      (.agentConnected files)).calls.length = files.length ∧
    (handleMessage od ⟨some aid, [], none⟩
      (.agentConnected files)).state.filesMap = files := by
  refine ⟨rfl, rfl, ?_⟩
  have h := snapshotStep_spec od aid ha files ⟨some aid, [], none⟩ rfl
    (by intro pr _ q hq; simp at hq) hnodup
  show (snapshotStep od ⟨some aid, [], none⟩ files).1.filesMap = files
  rw [h]
  simp

/-- C3 witness: the amended theorem at a concrete two-entry snapshot. -/
theorem c3_connection_sync_witness :
    ("a1" ≠ "") ∧
    (([("f1", "c1"), ("f2", "c2")].map Prod.fst).Nodup) ∧
    ((handleMessage "./output" ⟨some "a1", [], none⟩
        (.agentConnected [("f1", "c1"), ("f2", "c2")])).calls =
        [("f1", "c1"), ("f2", "c2")] ∧
      (handleMessage "./output" ⟨some "a1", [], none⟩
        (.agentConnected [("f1", "c1"), ("f2", "c2")])).calls.length = 2 ∧
      (handleMessage "./output" ⟨some "a1", [], none⟩
        (.agentConnected [("f1", "c1"), ("f2", "c2")])).state.filesMap =
        [("f1", "c1"), ("f2", "c2")]) :=
  ⟨by decide, by decide,
    c3_connection_sync_resync "./output" "a1" [("f1", "c1"), ("f2", "c2")]
      (by decide) (by decide)⟩

theorem processMsgs_append (od : String) (xs ys : List WsMessage) :
    ∀ s, processMsgs od s (xs ++ ys) =
      ⟨(processMsgs od (processMsgs od s xs).state ys).state,
       (processMsgs od s xs).calls ++
         (processMsgs od (processMsgs od s xs).state ys).calls,
       (processMsgs od s xs).writes ++
         (processMsgs od (processMsgs od s xs).state ys).writes⟩ := by
  induction xs with
  | nil => intro s; rfl
  | cons x xs ih =>
    intro s
    show (⟨(processMsgs od (handleMessage od s x).state (xs ++ ys)).state,
        (handleMessage od s x).calls ++
          (processMsgs od (handleMessage od s x).state (xs ++ ys)).calls,
        (handleMessage od s x).writes ++
          (processMsgs od (handleMessage od s x).state (xs ++ ys)).writes⟩ :
      HandleResult) = _
    rw [ih (handleMessage od s x).state]
    simp [processMsgs, List.append_assoc]

theorem isChunkFrame_eq (m : WsMessage) (h : isChunkFrame m = true) :
    ∃ q ch, m = .fileChunkGenerated q ch := by
  cases m <;> simp [isChunkFrame] at h
  exact ⟨_, _, rfl⟩

theorem processMsgs_chunks_noop (od : String) :
    ∀ (chunks : List WsMessage), (∀ m ∈ chunks, isChunkFrame m = true) →
    ∀ s, processMsgs od s chunks = ⟨s, [], []⟩ := by
  intro chunks
  induction chunks with
  | nil => intro _ s; rfl
  | cons m ms ih =>
    intro h s
    obtain ⟨q, ch, rfl⟩ := isChunkFrame_eq m (h m (List.mem_cons_self _ _))
    have hrest := ih (fun a ha => h a (List.mem_cons_of_mem _ ha)) s
    show (⟨(processMsgs od s ms).state,
        [] ++ (processMsgs od s ms).calls,
        [] ++ (processMsgs od s ms).writes⟩ : HandleResult) = ⟨s, [], []⟩
    rw [hrest]
    rfl

/-- C4: in a sequence of one `file_generating` frame, any number of
`file_chunk_generated` frames and one final `file_generated` frame,
exactly one `saveFile` call occurs; it is triggered by the `file_generated`
frame (the prefix without it triggers none), and its contents are the
`file_generated` frame's own content as resolved from its inline file
object or its flattened path/contents fields — never a concatenation of
the chunk frames. -/
theorem c4_single_write_from_generated (od : String) (s : CliState)
    (p c : String) (file : Option FileObj) (fp fc : Option String)
    (chunks : List WsMessage)
    (hchunks : ∀ m ∈ chunks, isChunkFrame m = true)
    (hres : resolvedFile file fp fc = ⟨p, c⟩) :
    (processMsgs od s (WsMessage.fileGenerating p ::
      (chunks ++ [WsMessage.fileGenerated file fp fc]))).calls = [(p, c)] ∧
    (processMsgs od s (WsMessage.fileGenerating p :: chunks)).calls = [] := by
  constructor
  · show ([] ++ (processMsgs od s
      (chunks ++ [WsMessage.fileGenerated file fp fc])).calls : List _) = [(p, c)]
    rw [List.nil_append, processMsgs_append od chunks _ s,
      processMsgs_chunks_noop od chunks hchunks s]
    show ([] ++ ((handleMessage od s (WsMessage.fileGenerated file fp fc)).calls ++
      (processMsgs od _ []).calls) : List _) = [(p, c)]
    show ([] ++ ([( (resolvedFile file fp fc).filePath,
      (resolvedFile file fp fc).fileContents )] ++ []) : List _) = [(p, c)]
    rw [hres]
    rfl
  · show ([] ++ (processMsgs od s chunks).calls : List _) = []
    rw [List.nil_append, processMsgs_chunks_noop od chunks hchunks s]

/-- C4 witness: a generating frame, two chunk frames and a generated frame
with flattened path/contents fields. -/
theorem c4_single_write_witness :
    (∀ m ∈ [WsMessage.fileChunkGenerated "p.ts" "chunkA",
            WsMessage.fileChunkGenerated "p.ts" "chunkB"],
      isChunkFrame m = true) ∧
    resolvedFile none (some "p.ts") (some "body") = ⟨"p.ts", "body"⟩ ∧
    ((processMsgs "./output" ⟨some "a1", [], none⟩
        (WsMessage.fileGenerating "p.ts" ::
          ([WsMessage.fileChunkGenerated "p.ts" "chunkA",
            WsMessage.fileChunkGenerated "p.ts" "chunkB"] ++
            [WsMessage.fileGenerated none (some "p.ts") (some "body")]))).calls =
        [("p.ts", "body")] ∧
      (processMsgs "./output" ⟨some "a1", [], none⟩
        (WsMessage.fileGenerating "p.ts" ::
          [WsMessage.fileChunkGenerated "p.ts" "chunkA",
           WsMessage.fileChunkGenerated "p.ts" "chunkB"])).calls = []) :=
  ⟨by decide, by decide,
    c4_single_write_from_generated "./output" ⟨some "a1", [], none⟩
      "p.ts" "body" none (some "p.ts") (some "body")
      [WsMessage.fileChunkGenerated "p.ts" "chunkA",
       WsMessage.fileChunkGenerated "p.ts" "chunkB"]
      (by decide) (by decide)⟩

/-! ## C5, C6, C7, C9, C10 -/

theorem completion_shape (m : WsMessage) (hm : isCompletionFrame m = true) :
    (∃ d p1 p2, m = .deploymentCompleted d p1 p2) ∨
    (∃ du wu, m = .cloudflareDeploymentCompleted du wu) := by
  cases m <;> simp [isCompletionFrame] at hm
  all_goals first
  | exact Or.inl ⟨_, _, _, rfl⟩
  | exact Or.inr ⟨_, _, rfl⟩

theorem handle_completion (od : String) (s : CliState) (m : WsMessage)
    (hm : isCompletionFrame m = true) :
    handleMessage od s m =
      ⟨{ s with lastDeploymentUrl := resolvedUrlOf m }, [], []⟩ := by
  rcases completion_shape m hm with ⟨d, p1, p2, rfl⟩ | ⟨du, wu, rfl⟩ <;> rfl

theorem urlShown_update (s : CliState) (a : Option String) :
    urlShown { s with lastDeploymentUrl := orNull a } = orNull a := by
  show (if truthyOpt (orNull a) then orNull a else none) = orNull a
  by_cases h : truthyOpt a = true
  · rw [show orNull a = a from by rw [orNull, if_pos h], if_pos h]
  · rw [show orNull a = none from by rw [orNull, if_neg h]]
    rfl

/-- C5: the delivered URL of a completion frame is resolved by the ordered
fallback chain over the lineage's fields, first truthy field winning: for
the preview lineage `deployedUrl`, then `previewURL`, then `previewUrl`;
for the production lineage `deploymentUrl`, then `workersUrl`.  In
particular, with the first field absent and the later fields present and
non-empty, the stored URL is the second field's value. -/
theorem c5_url_fallback_second_field (od : String) (s : CliState)
    (b c w : String) (hb : b ≠ "") (hw : w ≠ "") :
    (handleMessage od s
      (.deploymentCompleted none (some b) (some c))).state.lastDeploymentUrl =
      some b ∧
    (handleMessage od s
      (.cloudflareDeploymentCompleted none (some w))).state.lastDeploymentUrl =
      some w := by
  constructor <;> simp [handleMessage, jsOr, orNull, truthyOpt, hb, hw]

/-- C5 witness: concrete completion frames with the first chain field
absent and the following fields present. -/
theorem c5_url_fallback_witness :
    ("https://b.example" ≠ "") ∧ ("https://w.example" ≠ "") ∧
    ((handleMessage "./output" ⟨some "a1", [], none⟩
        (.deploymentCompleted none (some "https://b.example")
          (some "https://c.example"))).state.lastDeploymentUrl =
        some "https://b.example" ∧
      (handleMessage "./output" ⟨some "a1", [], none⟩
        (.cloudflareDeploymentCompleted none
          (some "https://w.example"))).state.lastDeploymentUrl =
        some "https://w.example") :=
  ⟨by decide, by decide,
    c5_url_fallback_second_field "./output" ⟨some "a1", [], none⟩
      "https://b.example" "https://c.example" "https://w.example"
      (by decide) (by decide)⟩

/-- C6: after any interleaving of preview-lineage and production-lineage
completion frames, `lastDeploymentUrl` — and thus the `/url` report —
equals the URL resolved from the most recently processed completion frame,
whatever its lineage; processing completion frames never touches the file
map or the session identity (the dispatcher holds no other per-lineage
record that could be mutated or cleared). -/
theorem c6_latest_completion_wins (od : String) (ms : List WsMessage)
    (m : WsMessage) (hm : isCompletionFrame m = true) :
    ∀ s : CliState, (∀ x ∈ ms, isCompletionFrame x = true) →
    (processMsgs od s (ms ++ [m])).state.lastDeploymentUrl = resolvedUrlOf m ∧
    urlShown (processMsgs od s (ms ++ [m])).state = resolvedUrlOf m ∧
    (processMsgs od s (ms ++ [m])).state.filesMap = s.filesMap ∧
    (processMsgs od s (ms ++ [m])).state.agentId = s.agentId := by
  induction ms with
  | nil =>
    intro s _
    have hst : (processMsgs od s ([] ++ [m])).state = (handleMessage od s m).state := rfl
    rw [hst, handle_completion od s m hm]
    rcases completion_shape m hm with ⟨d, p1, p2, rfl⟩ | ⟨du, wu, rfl⟩ <;>
      exact ⟨rfl, urlShown_update s _, rfl, rfl⟩
  | cons x xs ih =>
    intro s hms
    have hx := handle_completion od s x (hms x (List.mem_cons_self _ _))
    obtain ⟨h1, h2, h3, h4⟩ :=
      ih (handleMessage od s x).state (fun a ha => hms a (List.mem_cons_of_mem _ ha))
    refine ⟨h1, h2, ?_, ?_⟩
    · rw [show (processMsgs od s ((x :: xs) ++ [m])).state.filesMap =
        (processMsgs od (handleMessage od s x).state (xs ++ [m])).state.filesMap from rfl,
        h3, hx]
    · rw [show (processMsgs od s ((x :: xs) ++ [m])).state.agentId =
        (processMsgs od (handleMessage od s x).state (xs ++ [m])).state.agentId from rfl,
        h4, hx]

/-- C6 witness: a preview completion followed by a production completion;
the latest (production) URL wins, and the file map and session id are
untouched. -/
theorem c6_latest_completion_witness :
    isCompletionFrame (WsMessage.cloudflareDeploymentCompleted none
      (some "https://w.example")) = true ∧
    (∀ x ∈ [WsMessage.deploymentCompleted (some "https://p.example") none none],
      isCompletionFrame x = true) ∧
    ((processMsgs "./output" ⟨some "a1", [("f", "c")], none⟩
        ([WsMessage.deploymentCompleted (some "https://p.example") none none] ++
          [WsMessage.cloudflareDeploymentCompleted none
            (some "https://w.example")])).state.lastDeploymentUrl =
        resolvedUrlOf (WsMessage.cloudflareDeploymentCompleted none
          (some "https://w.example")) ∧
      urlShown (processMsgs "./output" ⟨some "a1", [("f", "c")], none⟩
        ([WsMessage.deploymentCompleted (some "https://p.example") none none] ++
          [WsMessage.cloudflareDeploymentCompleted none
            (some "https://w.example")])).state =
        resolvedUrlOf (WsMessage.cloudflareDeploymentCompleted none
          (some "https://w.example")) ∧
      (processMsgs "./output" ⟨some "a1", [("f", "c")], none⟩
        ([WsMessage.deploymentCompleted (some "https://p.example") none none] ++
          [WsMessage.cloudflareDeploymentCompleted none
            (some "https://w.example")])).state.filesMap = [("f", "c")] ∧
      (processMsgs "./output" ⟨some "a1", [("f", "c")], none⟩
        ([WsMessage.deploymentCompleted (some "https://p.example") none none] ++
          [WsMessage.cloudflareDeploymentCompleted none
            (some "https://w.example")])).state.agentId = some "a1") :=
  ⟨by decide, by decide,
    c6_latest_completion_wins "./output"
      [WsMessage.deploymentCompleted (some "https://p.example") none none]
      (WsMessage.cloudflareDeploymentCompleted none (some "https://w.example"))
      (by decide) ⟨some "a1", [("f", "c")], none⟩ (by decide)⟩

/-- C7: a well-formed frame whose discriminant is not one of the
recognized case labels falls into the `default` arm: the dispatcher does
not raise (the handler is total), mutates no session state — file map,
latest deployment URL and session identity are untouched — performs no
`saveFile` call, and processing of subsequent frames continues exactly as
if the unknown frame had not been there. -/
theorem c7_unknown_frame_ignored (od : String) (s : CliState) (t : String)
    (rest : List WsMessage) (h : t ∉ recognizedTypes) :
    handleMessage od s (.unknown t) = ⟨s, [], []⟩ ∧
    processMsgs od s (.unknown t :: rest) = processMsgs od s rest :=
  ⟨rfl, rfl⟩

/-- C7 witness: a frame with the unrecognized discriminant
`brand_new_type`, followed by a recognized frame that is still processed. -/
theorem c7_unknown_frame_witness :
    "brand_new_type" ∉ recognizedTypes ∧
    (handleMessage "./output" ⟨some "a1", [("f", "c")], some "u"⟩
        (.unknown "brand_new_type") =
        ⟨⟨some "a1", [("f", "c")], some "u"⟩, [], []⟩ ∧
      processMsgs "./output" ⟨some "a1", [("f", "c")], some "u"⟩
          [.unknown "brand_new_type", .generationStarted] =
        processMsgs "./output" ⟨some "a1", [("f", "c")], some "u"⟩
          [.generationStarted]) :=
  ⟨by decide,
    c7_unknown_frame_ignored "./output" ⟨some "a1", [("f", "c")], some "u"⟩
      "brand_new_type" [.generationStarted] (by decide)⟩

/-- Phase-progress frames, `phase_failed` included, are display-only in
this client: the dispatcher keeps no per-phase status, so handling any
phase frame leaves the session state unchanged and performs no call or
write.  (Context for the spec's phase-status stickiness invariant, which
has no state in this code to act on.) -/
theorem phase_frames_display_only (od : String) (s : CliState)
    (k : PhaseKind) (msg : String) :
    handleMessage od s (.phaseProgress k msg) = ⟨s, [], []⟩ := rfl

theorem normStep_fold_no_updirs (segs : List String) :
    ∀ init, ".." ∉ segs →
    segs.foldl normStep init =
      init ++ segs.filter (fun t => !(t == "" || t == ".")) := by
  induction segs with
  | nil => intro init _; simp
  | cons a rest ih =>
    intro init h
    rw [List.mem_cons, not_or] at h
    obtain ⟨h1, h2⟩ := h
    have ha : a ≠ ".." := fun e => h1 e.symm
    show List.foldl normStep (normStep init a) rest = _
    by_cases he : a = "" ∨ a = "."
    · have hstep : normStep init a = init := by simp [normStep, he]
      have hp : (!(a == "" || a == ".")) = false := by
        rcases he with rfl | rfl <;> simp
      rw [hstep, ih init h2, List.filter_cons, hp]
      simp
    · have hstep : normStep init a = init ++ [a] := by
        simp [normStep, he, ha]
      have hp : (!(a == "" || a == ".")) = true := by
        rw [not_or] at he
        simp [he.1, he.2]
      rw [hstep, ih (init ++ [a]) h2, List.filter_cons, hp]
      simp

/-- C9 counterexample: `saveFile` performs no confinement — with the
default output root, session id `a1` and relative path `../evil`, the
joined and normalized write path is `output/evil`, which does not lie
under the session root `output/a1`: the escaping segment is followed, not
rejected. -/
theorem c9_escape_counterexample :
    (saveFile (some "a1") "./output" [] "../evil" "boom").2 =
      [(["output", "evil"], "boom")] ∧
    normSegs (pathSegs "./output" ++ pathSegs "a1") = ["output", "a1"] ∧
    ¬ confinedUnder ["output", "a1"] ["output", "evil"] := by
  refine ⟨by decide, by decide, ?_⟩
  show ¬ ((["output", "evil"] : List String).take
    (["output", "a1"] : List String).length = ["output", "a1"])
  decide

/-- C9 (amended): `saveFile` neither rejects nor root-confines the
relative path: it joins and normalizes it, so a `..` segment can escape
the session root (counterexample).  Confinement is guaranteed whenever
the relative path is free of `..` segments: then the write path is the
session root followed by the path's real segments.  (This is a sufficient
condition only: some paths with `..` segments, such as `a/../b`, still
normalize to a location under the root.) -/
theorem c9_confined_without_updirs (od aid fp contents : String)
    (m : List (String × String))
    (ha : aid ≠ "") (h : ".." ∉ pathSegs fp) :
    (saveFile (some aid) od m fp contents).2 =
      [(savePathSegs od aid fp, contents)] ∧
    confinedUnder (normSegs (pathSegs od ++ pathSegs aid))
      (savePathSegs od aid fp) := by
  constructor
  · simp [saveFile, truthyOpt, ha]
  · have hdecomp : savePathSegs od aid fp =
        normSegs (pathSegs od ++ pathSegs aid) ++
          (pathSegs fp).filter (fun t => !(t == "" || t == ".")) := by
      rw [savePathSegs, normSegs, List.foldl_append]
      exact normStep_fold_no_updirs (pathSegs fp) _ h
    rw [confinedUnder, hdecomp, List.take_left]

/-- C9 witness: the amended theorem at a concrete `..`-free relative path. -/
theorem c9_confined_witness :
    ("a1" ≠ "") ∧ (".." ∉ pathSegs "src/app.ts") ∧
    ((saveFile (some "a1") "./output" [] "src/app.ts" "body").2 =
        [(savePathSegs "./output" "a1" "src/app.ts", "body")] ∧
      confinedUnder (normSegs (pathSegs "./output" ++ pathSegs "a1"))
        (savePathSegs "./output" "a1" "src/app.ts")) :=
  ⟨by decide, by decide,
    c9_confined_without_updirs "./output" "a1" "src/app.ts" "body" []
      (by decide) (by decide)⟩

/-- C10: a completion frame of either lineage in which no field of that
lineage's fallback chain holds a truthy (non-empty) string stores `null`
in `lastDeploymentUrl` — erasing any previously stored URL — and `/url`
then reports that no deployment URL is available. -/
theorem c10_empty_completion_clears_url (od : String) (s : CliState)
    (d p1 p2 du wu : Option String)
    (h1 : truthyOpt d = false) (h2 : truthyOpt p1 = false)
    (h3 : truthyOpt p2 = false) (h4 : truthyOpt du = false)
    (h5 : truthyOpt wu = false) :
    (handleMessage od s
      (.deploymentCompleted d p1 p2)).state.lastDeploymentUrl = none ∧
    urlShown (handleMessage od s (.deploymentCompleted d p1 p2)).state = none ∧
    (handleMessage od s
      (.cloudflareDeploymentCompleted du wu)).state.lastDeploymentUrl = none ∧
    urlShown (handleMessage od s
      (.cloudflareDeploymentCompleted du wu)).state = none := by
  have e1 : orNull (jsOr (jsOr d p1) p2) = none := by
    simp [jsOr, orNull, h1, h2, h3]
  have e2 : orNull (jsOr du wu) = none := by
    simp [jsOr, orNull, h4, h5]
  refine ⟨?_, ?_, ?_, ?_⟩ <;>
    simp [handleMessage, e1, e2, urlShown, truthyOpt]

/-- C10 witness: a state holding a previously stored URL, hit by
completion frames whose chain fields are absent or empty strings. -/
theorem c10_empty_completion_witness :
    truthyOpt none = false ∧ truthyOpt (some "") = false ∧
    ((handleMessage "./output" ⟨some "a1", [], some "https://old.example"⟩
        (.deploymentCompleted none (some "") none)).state.lastDeploymentUrl =
        none ∧
      urlShown (handleMessage "./output"
        ⟨some "a1", [], some "https://old.example"⟩
        (.deploymentCompleted none (some "") none)).state = none ∧
      (handleMessage "./output" ⟨some "a1", [], some "https://old.example"⟩
        (.cloudflareDeploymentCompleted none
          (some ""))).state.lastDeploymentUrl = none ∧
      urlShown (handleMessage "./output"
        ⟨some "a1", [], some "https://old.example"⟩
        (.cloudflareDeploymentCompleted none (some ""))).state = none) :=
  ⟨by decide, by decide,
    c10_empty_completion_clears_url "./output"
      ⟨some "a1", [], some "https://old.example"⟩
      none (some "") none none (some "")
      (by decide) (by decide) (by decide) (by decide) (by decide)⟩

end VibeCli
